import Mathlib

/-!
Verification of the context-budgeting and history-management core of the
llama-on-rust conversational front end.

The definitions below are a shallow embedding of the Rust source:
the token estimator, the response-length clamp, the history budget,
the most-recent-first history truncation, the role-prefix parsing of
stored turns, the outbound message assembly (src/model/mod.rs), and the
per-request chat orchestration over the session store (src/web/handlers.rs,
src/main.rs). Machine integers (usize) are modelled as Nat; Rust
saturating_sub is Nat truncated subtraction; the upstream HTTP exchange is
modelled by an explicit reply value.
-/

/-- Role of an outbound message (src/web/models.rs, enum Role). -/
inductive Role where
  | user : Role
  | assistant : Role
  | system : Role
deriving DecidableEq, Repr

/-- An outbound chat message (src/web/models.rs, struct Message). -/
structure Message where
  role : Role
  content : String
deriving DecidableEq, Repr

/-- The token-limit configuration of LlamaModel (src/model/mod.rs,
struct LlamaModel fields, all usize). -/
structure Config where
  max_context_window : Nat
  system_message_reserve : Nat
  response_reserve : Nat
  min_tokens : Nat
  max_tokens : Nat
deriving DecidableEq, Repr

/-- The startup validation performed by LlamaModel::new
(src/model/mod.rs lines 77-101): the construction succeeds exactly when
all four checks pass. -/
abbrev startupOk (cfg : Config) : Prop :=
  cfg.min_tokens ≤ cfg.max_tokens ∧
  cfg.max_tokens ≤ cfg.max_context_window ∧
  cfg.system_message_reserve + cfg.response_reserve < cfg.max_context_window ∧
  100 ≤ cfg.max_context_window - (cfg.system_message_reserve + cfg.response_reserve)

/-- Token estimator (src/model/mod.rs lines 120-124):
Rust text.len() is the UTF-8 byte length, so it is modelled by
String.utf8ByteSize; the estimate is (len / 4).max(1). -/
def estimate_tokens (text : String) : Nat :=
  (text.utf8ByteSize / 4).max 1

/-- The clamp of the caller-requested max_tokens into the configured
bounds (src/model/mod.rs lines 134-143). -/
def adjusted_max_tokens (cfg : Config) (max_tokens : Nat) : Nat :=
  if max_tokens < cfg.min_tokens then cfg.min_tokens
  else if max_tokens > cfg.max_tokens then cfg.max_tokens
  else max_tokens

/-- The history budget (src/model/mod.rs lines 145-149):
max_context_window.saturating_sub(system reserve + response reserve +
estimated prompt tokens); Nat subtraction is exactly saturating_sub. -/
def available_history_tokens (cfg : Config) (prompt : String) : Nat :=
  cfg.max_context_window -
    (cfg.system_message_reserve + cfg.response_reserve + estimate_tokens prompt)

/-- The truncation walk of src/model/mod.rs lines 163-175: the input list
is the history in most-recent-first order, total is the running token
count; the walk stops (break) at the first entry whose inclusion would
exceed the budget. -/
def truncAux (budget : Nat) : List String → Nat → List String
  | [], _ => []
  | msg :: rest, total =>
    if total + estimate_tokens msg > budget then []
    else msg :: truncAux budget rest (total + estimate_tokens msg)

/-- The full truncation step of generate_response
(src/model/mod.rs lines 160-178): walk the history in reverse
(most recent first) accumulating estimates, then reverse the retained
entries back to chronological order. -/
def truncate_history (history : List String) (budget : Nat) : List String :=
  (truncAux budget history.reverse 0).reverse

/-- Cumulative estimated token count of a list of turns. -/
def sumEstimates (l : List String) : Nat :=
  (l.map estimate_tokens).sum

/-- Rust str::starts_with for string patterns: byte-prefix test, modelled
as a character-list prefix test. -/
def strStartsWith (pat s : String) : Bool :=
  pat.data.isPrefixOf s.data

/-- Recursive core of trim_start_matches: repeatedly remove the pattern
from the front while it is a prefix; the fuel argument bounds the number
of removals (each removal of a nonempty pattern shortens the list). -/
def trimGo (p : List Char) : Nat → List Char → List Char
  | 0, s => s
  | n + 1, s =>
    if !p.isEmpty && p.isPrefixOf s then trimGo p n (s.drop p.length) else s

/-- Rust str::trim_start_matches with a string pattern
(src/model/mod.rs lines 183 and 185): repeatedly removes the pattern
from the start of the string. -/
def trim_start_matches (pat s : String) : String :=
  String.mk (trimGo pat.data s.data.length s.data)

/-- Role-prefix parsing of one stored history turn
(src/model/mod.rs lines 182-188): a turn starting with neither
recognized prefix yields none (the continue branch). -/
def parseTurn (m : String) : Option Message :=
  if strStartsWith "user: " m then
    some ⟨Role.user, trim_start_matches "user: " m⟩
  else if strStartsWith "assistant: " m then
    some ⟨Role.assistant, trim_start_matches "assistant: " m⟩
  else
    none

/-- The system message opening the outbound list
(src/model/mod.rs lines 152-157), with the adjusted max_tokens embedded
in its content. -/
def systemMessage (adjusted : Nat) : Message :=
  ⟨Role.system,
    "You are a helpful AI assistant. When responding to the user, please be thorough and detailed in your explanations. Aim to use close to the maximum token length of "
      ++ toString adjusted ++ " tokens when appropriate for the question."⟩

/-- The pure message-assembly portion of generate_response
(src/model/mod.rs lines 151-200): system message, then the parsed
retained history turns, then the current prompt as the final user
message. -/
def assembleMessages (cfg : Config) (prompt : String) (maxTok : Nat)
    (history : List String) : List Message :=
  systemMessage (adjusted_max_tokens cfg maxTok) ::
    ((truncate_history history (available_history_tokens cfg prompt)).filterMap
        parseTurn
      ++ [⟨Role.user, prompt⟩])

/-- The reply of the upstream chat-completion server, as observed by
generate_response (src/model/mod.rs lines 215-236): HTTP status success
flag, response body text, and the extracted choices 0 message content
when the success body parses and contains it. -/
structure UpstreamReply where
  is_success : Bool
  body : String
  extracted : Option String

/-- The outcome of generate_response after the request is sent
(src/model/mod.rs lines 220-239): non-success status yields the
API-request-failed error carrying the body; a success reply without an
extractable content field yields the extraction error; otherwise the
content is returned. -/
def generate_response_result (reply : UpstreamReply) : Except String String :=
  if reply.is_success then
    match reply.extracted with
    | some c => Except.ok c
    | none => Except.error "Failed to extract content from response"
  else
    Except.error ("API request failed: " ++ reply.body)

/-- The session store of AppState (src/main.rs line 19,
Mutex of HashMap from Uuid to Vec of String), modelled as a map from
opaque session identifiers to the optional turn list; none means the
identifier has no entry yet. -/
abbrev SessionMap := Nat → Option (List String)

/-- sessions.entry(id).or_insert_with(Vec::new) read back as a list
(src/web/handlers.rs line 62): the existing turns, or empty for an
unknown identifier. -/
def getOrCreate (m : SessionMap) (id : Nat) : List String :=
  (m id).getD []

/-- Appending one turn under a session identifier, creating the entry
when absent (src/web/handlers.rs lines 62-65 and 78-81). -/
def appendTurn (m : SessionMap) (id : Nat) (turn : String) : SessionMap :=
  fun j => if j = id then some (getOrCreate m id ++ [turn]) else m j

/-- A sequence of append operations against the session store, each a
pair of a session identifier and a turn. -/
def runOps (m : SessionMap) (ops : List (Nat × String)) : SessionMap :=
  ops.foldl (fun acc p => appendTurn acc p.1 p.2) m

/-- Whether every operation of a sequence targets the session A. -/
def targets (A : Nat) (ops : List (Nat × String)) : Bool :=
  ops.all (fun p => p.1 == A)

/-- The store of a process that has not yet served any session. -/
def emptySessions : SessionMap := fun _ => none

/-- The prompt enhancement of the chat handler
(src/web/handlers.rs lines 45-46). -/
def enhance_prompt (message : String) : String :=
  message ++ "\n\nPlease provide a detailed and comprehensive answer."

/-- Result of one chat request: the session store afterwards, the HTTP
level result (ok body or error body), and the outbound message payload
that was sent upstream. -/
structure ChatOutcome where
  sessions : SessionMap
  result : Except String String
  payload : List Message

/-- One execution of the chat handler (src/web/handlers.rs lines 29-99)
with the upstream reply supplied as a value: append the user turn
(original message) under the session, snapshot the history, call
generate_response with the enhanced prompt against that snapshot, and on
success append the assistant turn; on failure leave the store as it was
after the user-turn append and surface the error. -/
def chatStep (cfg : Config) (m : SessionMap) (id : Nat) (message : String)
    (maxTok : Nat) (up : UpstreamReply) : ChatOutcome :=
  let hist := getOrCreate m id ++ ["user: " ++ message]
  let m1 : SessionMap := fun j => if j = id then some hist else m j
  let payload := assembleMessages cfg (enhance_prompt message) maxTok hist
  match generate_response_result up with
  | Except.ok resp =>
    ⟨fun j => if j = id then some (hist ++ ["assistant: " ++ resp]) else m1 j,
      Except.ok resp, payload⟩
  | Except.error e =>
    ⟨m1, Except.error ("Failed to generate response: " ++ e), payload⟩

/-! Helper lemmas about the truncation walk. -/

/-- Running the walk with an accumulated total is the same as running it
with the remaining budget. -/
lemma truncAux_shift (rl : List String) : ∀ (b t : Nat), t ≤ b →
    truncAux b rl t = truncAux (b - t) rl 0 := by
  induction rl with
  | nil => intro b t _; rfl
  | cons m rest ih =>
    intro b t h
    simp only [truncAux]
    by_cases hc : t + estimate_tokens m > b
    · rw [if_pos hc, if_pos (by omega)]
    · rw [if_neg hc, if_neg (by omega)]
      rw [ih b (t + estimate_tokens m) (by omega),
        ih (b - t) (0 + estimate_tokens m) (by omega)]
      have harith : b - (t + estimate_tokens m)
          = (b - t) - (0 + estimate_tokens m) := by omega
      rw [harith]

/-- The walk keeps an initial segment of its input. -/
lemma truncAux_decomp (b : Nat) : ∀ (rl : List String) (t : Nat),
    ∃ rest, rl = truncAux b rl t ++ rest := by
  intro rl
  induction rl with
  | nil => intro t; exact ⟨[], rfl⟩
  | cons m rl' ih =>
    intro t
    simp only [truncAux]
    by_cases hc : t + estimate_tokens m > b
    · rw [if_pos hc]
      exact ⟨m :: rl', rfl⟩
    · rw [if_neg hc]
      obtain ⟨rest, hr⟩ := ih (t + estimate_tokens m)
      exact ⟨rest, by rw [List.cons_append, ← hr]⟩

/-- The kept entries fit the budget together with the accumulated total. -/
lemma truncAux_sum (rl : List String) : ∀ (b t : Nat), t ≤ b →
    t + sumEstimates (truncAux b rl t) ≤ b := by
  induction rl with
  | nil => intro b t h; simpa [truncAux, sumEstimates] using h
  | cons m rl' ih =>
    intro b t h
    simp only [truncAux]
    by_cases hc : t + estimate_tokens m > b
    · rw [if_pos hc]
      simpa [sumEstimates] using h
    · rw [if_neg hc]
      have hr := ih b (t + estimate_tokens m) (by omega)
      simp only [sumEstimates, List.map_cons, List.sum_cons] at hr ⊢
      omega

/-- Any initial segment of the input that fits the budget is no longer
than what the walk keeps. -/
lemma truncAux_maximal (rl : List String) : ∀ (b k : Nat),
    sumEstimates (rl.take k) ≤ b →
    (rl.take k).length ≤ (truncAux b rl 0).length := by
  induction rl with
  | nil => intro b k _; simp
  | cons m rl' ih =>
    intro b k h
    match k with
    | 0 => simp
    | j + 1 =>
      simp only [List.take_succ_cons] at h ⊢
      simp only [sumEstimates, List.map_cons, List.sum_cons] at h
      simp only [truncAux]
      rw [if_neg (by omega)]
      rw [truncAux_shift rl' b (0 + estimate_tokens m) (by omega)]
      simp only [List.length_cons]
      have hr := ih (b - (0 + estimate_tokens m)) j (by
        simp only [sumEstimates]
        omega)
      omega

/-- The cumulative estimate is invariant under reversal. -/
lemma sumEstimates_reverse (l : List String) :
    sumEstimates l.reverse = sumEstimates l := by
  simp [sumEstimates, List.map_reverse, List.sum_reverse]

/-- The retained turns form a suffix of the history. -/
lemma truncate_history_decomp (history : List String) (budget : Nat) :
    ∃ pre, history = pre ++ truncate_history history budget := by
  obtain ⟨rest, hr⟩ := truncAux_decomp budget history.reverse 0
  refine ⟨rest.reverse, ?_⟩
  have hrev := congrArg List.reverse hr
  simpa [truncate_history] using hrev

/-- Unfolding of the truncation at the most recent turn: the most recent
entry is kept exactly when its estimate fits, and the remaining budget
for the older turns is reduced by its estimate. -/
lemma truncate_history_append_last (history : List String) (m : String)
    (budget : Nat) :
    truncate_history (history ++ [m]) budget =
      if estimate_tokens m ≤ budget
      then truncate_history history (budget - estimate_tokens m) ++ [m]
      else [] := by
  unfold truncate_history
  rw [List.reverse_append]
  simp only [List.reverse_cons, List.reverse_nil, List.nil_append,
    List.singleton_append]
  simp only [truncAux]
  by_cases hc : estimate_tokens m ≤ budget
  · rw [if_neg (by omega), if_pos hc,
      truncAux_shift history.reverse budget (0 + estimate_tokens m) (by omega)]
    simp
  · rw [if_pos (by omega), if_neg hc]
    rfl

/-! Helper lemmas about prefix parsing and trimming. -/

/-- A list is a Boolean prefix of itself followed by anything. -/
lemma isPrefixOf_self_append : ∀ (p s : List Char), p.isPrefixOf (p ++ s) = true
  | [], _ => by simp
  | c :: p, s => by
    simp [List.isPrefixOf, isPrefixOf_self_append p s]

/-- When the pattern is not a prefix, the trim loop returns its input
unchanged, whatever the fuel. -/
lemma trimGo_not_prefixed (p s : List Char) (h : p.isPrefixOf s = false) :
    ∀ n, trimGo p n s = s
  | 0 => rfl
  | n + 1 => by simp [trimGo, h]

/-- Stripping a nonempty pattern from a string it prefixes once, when the
remainder does not start with the pattern again. -/
lemma trim_strip_once (p s : String) (hp : p.data ≠ [])
    (h : strStartsWith p s = false) :
    trim_start_matches p (p ++ s) = s := by
  unfold trim_start_matches
  rw [show (p ++ s).data = p.data ++ s.data from rfl]
  have hlen : 0 < p.data.length := List.length_pos.mpr hp
  have hfuel : (p.data ++ s.data).length
      = (p.data.length - 1 + s.data.length) + 1 := by
    rw [List.length_append]
    omega
  rw [hfuel]
  simp only [trimGo]
  rw [if_pos (by
    simp only [Bool.and_eq_true, Bool.not_eq_true']
    exact ⟨by simpa [List.isEmpty_iff] using hp, isPrefixOf_self_append _ _⟩)]
  rw [List.drop_left]
  rw [trimGo_not_prefixed p.data s.data (by simpa [strStartsWith] using h)]

/-- Parsing a stored user turn recovers the original content when the
content does not itself begin with the user prefix. -/
lemma parseTurn_user (msg : String) (h : strStartsWith "user: " msg = false) :
    parseTurn ("user: " ++ msg) = some ⟨Role.user, msg⟩ := by
  have h1 : strStartsWith "user: " ("user: " ++ msg) = true := by
    show ("user: ").data.isPrefixOf (("user: " ++ msg)).data = true
    rw [show ("user: " ++ msg).data = ("user: ").data ++ msg.data from rfl]
    exact isPrefixOf_self_append _ _
  simp only [parseTurn, h1, if_true]
  rw [trim_strip_once "user: " msg (by decide) h]

/-- The outbound payload of one chat request, independent of the upstream
reply. -/
lemma chatStep_payload (cfg : Config) (m : SessionMap) (id : Nat)
    (message : String) (maxTok : Nat) (up : UpstreamReply) :
    (chatStep cfg m id message maxTok up).payload
      = assembleMessages cfg (enhance_prompt message) maxTok
          (getOrCreate m id ++ ["user: " ++ message]) := by
  unfold chatStep
  cases generate_response_result up <;> rfl

/-- A sequence of appends that never targets B leaves the entry of B
unchanged. -/
lemma runOps_frame (A B : Nat) (hAB : A ≠ B) (ops : List (Nat × String)) :
    ∀ (m : SessionMap), targets A ops = true →
      runOps m ops B = m B := by
  induction ops with
  | nil => intro m _; rfl
  | cons p ops ih =>
    intro m hall
    simp only [targets, List.all_cons, Bool.and_eq_true, beq_iff_eq] at hall
    obtain ⟨hp, hrest⟩ := hall
    have hstep : runOps m (p :: ops) B = runOps (appendTurn m p.1 p.2) ops B := rfl
    rw [hstep, ih _ (by simpa [targets] using hrest)]
    simp [appendTurn, hp, Ne.symm hAB]

/-! The claims. -/

/-- Claim C1: the turns retained by the truncation step of
generate_response are exactly the maximal chronological suffix of the
history whose cumulative estimated token count fits the budget: the
retained list is literally a chronological-order suffix of the history,
its cumulative estimate fits the budget, and every suffix of the history
(every drop) whose cumulative estimate fits is at most as long. -/
theorem truncation_retains_maximal_fitting_suffix (history : List String)
    (budget k : Nat) (hk : sumEstimates (history.drop k) ≤ budget) :
    history.drop (history.length - (truncate_history history budget).length)
        = truncate_history history budget ∧
    sumEstimates (truncate_history history budget) ≤ budget ∧
    (history.drop k).length ≤ (truncate_history history budget).length := by
  obtain ⟨pre, hpre⟩ := truncate_history_decomp history budget
  refine ⟨?_, ?_, ?_⟩
  · have hlen : history.length
        = pre.length + (truncate_history history budget).length := by
      conv_lhs => rw [hpre]
      rw [List.length_append]
    rw [hlen]
    have hidx : pre.length + (truncate_history history budget).length
        - (truncate_history history budget).length = pre.length := by omega
    rw [hidx]
    conv_lhs => rw [hpre]
    exact List.drop_left pre _
  · have h0 := truncAux_sum history.reverse budget 0 (Nat.zero_le _)
    have h1 := sumEstimates_reverse (truncAux budget history.reverse 0)
    simp only [truncate_history]
    omega
  · have hrev : (history.drop k).reverse
        = history.reverse.take (history.length - k) := List.reverse_drop
    have hsum : sumEstimates (history.reverse.take (history.length - k))
        ≤ budget := by
      rw [← hrev, sumEstimates_reverse]
      exact hk
    have hmax := truncAux_maximal history.reverse budget (history.length - k) hsum
    rw [← hrev] at hmax
    simpa [truncate_history] using hmax

/-- Witness for C1 at a concrete input: history of two turns, budget 3,
and the probe suffix obtained by dropping the first turn. -/
theorem truncation_retains_maximal_fitting_suffix_witness :
    sumEstimates (["user: A", "assistant: B"].drop 1) ≤ 3 ∧
    ((["user: A", "assistant: B"] : List String).drop
          ((["user: A", "assistant: B"] : List String).length
            - (truncate_history ["user: A", "assistant: B"] 3).length)
        = truncate_history ["user: A", "assistant: B"] 3 ∧
      sumEstimates (truncate_history ["user: A", "assistant: B"] 3) ≤ 3 ∧
      ((["user: A", "assistant: B"] : List String).drop 1).length
        ≤ (truncate_history ["user: A", "assistant: B"] 3).length) :=
  ⟨by decide,
    truncation_retains_maximal_fitting_suffix ["user: A", "assistant: B"] 3 1
      (by decide)⟩

/-- Claim C2: available_history_tokens is the saturating subtraction
max_context_window minus the reserves plus the estimated prompt, floored
at zero (stated over Int: the Nat result equals the max of zero and the
exact signed difference), is never negative, and for configurations
passing the startup checks it equals the exact difference whenever the
estimated prompt does not exceed the reserved budget. -/
theorem available_history_tokens_saturating (cfg : Config) (prompt : String) :
    ((available_history_tokens cfg prompt : Int)
        = max 0 ((cfg.max_context_window : Int)
            - ((cfg.system_message_reserve : Int) + (cfg.response_reserve : Int)
              + (estimate_tokens prompt : Int)))) ∧
    0 ≤ (available_history_tokens cfg prompt : Int) ∧
    (startupOk cfg →
      estimate_tokens prompt
          ≤ cfg.max_context_window
            - (cfg.system_message_reserve + cfg.response_reserve) →
      (available_history_tokens cfg prompt : Int)
        = (cfg.max_context_window : Int)
            - ((cfg.system_message_reserve : Int) + (cfg.response_reserve : Int)
              + (estimate_tokens prompt : Int))) := by
  refine ⟨?_, ?_, ?_⟩
  · unfold available_history_tokens
    omega
  · exact Int.natCast_nonneg _
  · rintro ⟨h1, h2, h3, h4⟩ hp
    unfold available_history_tokens
    omega

/-- Witness for C2 at the default configuration and the prompt Hi. -/
theorem available_history_tokens_saturating_witness :
    ((available_history_tokens ⟨4096, 200, 500, 100, 4096⟩ "Hi" : Int)
        = max 0 ((4096 : Int) - ((200 : Int) + (500 : Int)
            + (estimate_tokens "Hi" : Int)))) ∧
    0 ≤ (available_history_tokens ⟨4096, 200, 500, 100, 4096⟩ "Hi" : Int) ∧
    (startupOk ⟨4096, 200, 500, 100, 4096⟩ →
      estimate_tokens "Hi" ≤ 4096 - (200 + 500) →
      (available_history_tokens ⟨4096, 200, 500, 100, 4096⟩ "Hi" : Int)
        = (4096 : Int) - ((200 : Int) + (500 : Int)
            + (estimate_tokens "Hi" : Int))) :=
  available_history_tokens_saturating ⟨4096, 200, 500, 100, 4096⟩ "Hi"

/-- Claim C5: under the startup invariant min_tokens ≤ max_tokens, the
adjusted max_tokens lies in the inclusive configured range, a request
below the minimum is raised to it, a request above the maximum is capped
to it, and an in-range request is unchanged. -/
theorem adjusted_max_tokens_clamped (cfg : Config) (req : Nat)
    (h : cfg.min_tokens ≤ cfg.max_tokens) :
    cfg.min_tokens ≤ adjusted_max_tokens cfg req ∧
    adjusted_max_tokens cfg req ≤ cfg.max_tokens ∧
    (req < cfg.min_tokens → adjusted_max_tokens cfg req = cfg.min_tokens) ∧
    (cfg.max_tokens < req → adjusted_max_tokens cfg req = cfg.max_tokens) ∧
    (cfg.min_tokens ≤ req → req ≤ cfg.max_tokens
      → adjusted_max_tokens cfg req = req) := by
  unfold adjusted_max_tokens
  split_ifs with h1 h2 <;> omega

/-- Witness for C5: the default configuration with a request of 50. -/
theorem adjusted_max_tokens_clamped_witness :
    (100 : Nat) ≤ 4096 ∧
    ((100 : Nat) ≤ adjusted_max_tokens ⟨4096, 200, 500, 100, 4096⟩ 50 ∧
      adjusted_max_tokens ⟨4096, 200, 500, 100, 4096⟩ 50 ≤ 4096 ∧
      (50 < 100 → adjusted_max_tokens ⟨4096, 200, 500, 100, 4096⟩ 50 = 100) ∧
      (4096 < 50 → adjusted_max_tokens ⟨4096, 200, 500, 100, 4096⟩ 50 = 4096) ∧
      (100 ≤ 50 → 50 ≤ 4096
        → adjusted_max_tokens ⟨4096, 200, 500, 100, 4096⟩ 50 = 50)) :=
  ⟨by decide, adjusted_max_tokens_clamped ⟨4096, 200, 500, 100, 4096⟩ 50 (by decide)⟩

/-- Claim C6: estimate_tokens equals max 1 of the byte length divided by
four (text.len() in Rust is the UTF-8 byte length), and it depends only
on that length: any two texts of equal byte length get equal estimates.
It is a total function, so it has no failure mode. -/
theorem estimate_tokens_formula (text other : String)
    (h : other.utf8ByteSize = text.utf8ByteSize) :
    estimate_tokens text = Nat.max 1 (text.utf8ByteSize / 4) ∧
    estimate_tokens other = estimate_tokens text := by
  unfold estimate_tokens
  rw [h]
  exact ⟨Nat.max_comm _ 1, rfl⟩

/-- Witness for C6: two distinct five-byte texts. -/
theorem estimate_tokens_formula_witness :
    ("World" : String).utf8ByteSize = ("Hello" : String).utf8ByteSize ∧
    (estimate_tokens "Hello" = Nat.max 1 (("Hello" : String).utf8ByteSize / 4) ∧
      estimate_tokens "World" = estimate_tokens "Hello") :=
  ⟨by decide, estimate_tokens_formula "Hello" "World" (by decide)⟩

/-- Claim C7: the token estimate is monotone non-decreasing in the byte
length of the text, and is at least one for non-empty text. -/
theorem estimate_tokens_monotone (s t : String)
    (h : s.utf8ByteSize ≤ t.utf8ByteSize) :
    estimate_tokens s ≤ estimate_tokens t ∧
    (s ≠ "" → 1 ≤ estimate_tokens s) := by
  unfold estimate_tokens
  constructor
  · exact max_le_max (Nat.div_le_div_right h) le_rfl
  · intro _
    exact le_max_right _ 1

/-- Witness for C7: a two-byte and a six-byte text. -/
theorem estimate_tokens_monotone_witness :
    ("ab" : String).utf8ByteSize ≤ ("abcdef" : String).utf8ByteSize ∧
    (estimate_tokens "ab" ≤ estimate_tokens "abcdef" ∧
      (("ab" : String) ≠ "" → 1 ≤ estimate_tokens "ab")) :=
  ⟨by decide, estimate_tokens_monotone "ab" "abcdef" (by decide)⟩

set_option maxRecDepth 10000 in
/-- Claim C3 counterexample: a malformed history entry does affect the
token accounting of the other entries. With budget 2 (window 3, no
reserves, prompt of estimate 1), the malformed entry junkjunk
(estimate 2) exhausts the budget, so the older turn user: ab is dropped;
had the malformed entry contributed nothing to the accumulation, the
assembled list would be the one obtained without it, which retains
user: ab. The two assembled lists differ. -/
theorem malformed_entry_counts_against_budget :
    parseTurn "junkjunk" = none ∧
    assembleMessages ⟨3, 0, 0, 0, 10⟩ "x" 5 ["user: ab", "junkjunk"]
      ≠ assembleMessages ⟨3, 0, 0, 0, 10⟩ "x" 5 ["user: ab"] := by
  decide

/-- Claim C3 (amended): a history entry starting with neither recognized
prefix is skipped without error during role parsing — it contributes no
message, and the messages contributed by the other retained turns are
unchanged — but its estimated token count does participate in the budget
accumulation: with the malformed entry most recent, it is retained
exactly when its estimate fits, and the older turns are truncated
against the budget reduced by its estimate. -/
theorem malformed_entry_skipped_but_budgeted (history : List String)
    (m : String) (budget : Nat)
    (h1 : strStartsWith "user: " m = false)
    (h2 : strStartsWith "assistant: " m = false) :
    parseTurn m = none ∧
    truncate_history (history ++ [m]) budget =
      (if estimate_tokens m ≤ budget
        then truncate_history history (budget - estimate_tokens m) ++ [m]
        else []) ∧
    (truncate_history (history ++ [m]) budget).filterMap parseTurn =
      (if estimate_tokens m ≤ budget
        then (truncate_history history
            (budget - estimate_tokens m)).filterMap parseTurn
        else []) := by
  have hp : parseTurn m = none := by
    simp [parseTurn, h1, h2]
  refine ⟨hp, truncate_history_append_last history m budget, ?_⟩
  rw [truncate_history_append_last history m budget]
  by_cases hc : estimate_tokens m ≤ budget
  · rw [if_pos hc, if_pos hc]
    simp [List.filterMap_append, hp]
  · rw [if_neg hc, if_neg hc]
    rfl

/-- Witness for C3 (amended): the malformed entry junkjunk behind the
turn user: ab with budget 2. -/
theorem malformed_entry_skipped_but_budgeted_witness :
    strStartsWith "user: " "junkjunk" = false ∧
    strStartsWith "assistant: " "junkjunk" = false ∧
    (parseTurn "junkjunk" = none ∧
      truncate_history (["user: ab"] ++ ["junkjunk"]) 2 =
        (if estimate_tokens "junkjunk" ≤ 2
          then truncate_history ["user: ab"] (2 - estimate_tokens "junkjunk")
              ++ ["junkjunk"]
          else []) ∧
      (truncate_history (["user: ab"] ++ ["junkjunk"]) 2).filterMap parseTurn =
        (if estimate_tokens "junkjunk" ≤ 2
          then (truncate_history ["user: ab"]
              (2 - estimate_tokens "junkjunk")).filterMap parseTurn
          else [])) :=
  ⟨by decide, by decide,
    malformed_entry_skipped_but_budgeted ["user: ab"] "junkjunk" 2
      (by decide) (by decide)⟩

/-- Claim C4 counterexample: no configuration passing the startup checks
and no prompt give available_history_tokens = 1 together with a
three-message assembly over the history user: A, assistant: B. The turn
assistant: B is twelve bytes, so its estimate is 3, which already
exceeds a budget of 1: nothing is retained and the assembled list has
exactly two messages. -/
theorem no_turn_retained_under_budget_one :
    ¬ ∃ (cfg : Config) (prompt : String) (maxTok : Nat),
        startupOk cfg ∧ available_history_tokens cfg prompt = 1 ∧
        (assembleMessages cfg prompt maxTok
            ["user: A", "assistant: B"]).length = 3 := by
  rintro ⟨cfg, prompt, maxTok, -, havail, hlen⟩
  have hkept : truncate_history ["user: A", "assistant: B"]
      (available_history_tokens cfg prompt) = [] := by
    rw [havail]
    decide
  rw [assembleMessages] at hlen
  rw [hkept] at hlen
  simp at hlen

/-- The filler prompt used by the amended C4 example: 388 bytes, hence
an estimate of 97 tokens. -/
def promptFill : String := String.mk (List.replicate 388 'a')

set_option maxRecDepth 100000 in
/-- Claim C4 (amended): for a configuration satisfying the startup
invariants (window 800, reserves 400 and 300, min 1, max 800) and a
prompt of estimate 97, available_history_tokens is 3 — the estimate of
assistant: B, which is twelve bytes, is 3, not 1 — and assembling with
history user: A, assistant: B retains only the most recent turn,
producing the three-message list: system message, the assistant turn,
and the final user message carrying the prompt. -/
theorem single_recent_turn_retained_under_budget_three :
    startupOk ⟨800, 400, 300, 1, 800⟩ ∧
    available_history_tokens ⟨800, 400, 300, 1, 800⟩ promptFill = 3 ∧
    estimate_tokens "assistant: B" = 3 ∧
    truncate_history ["user: A", "assistant: B"] 3 = ["assistant: B"] ∧
    assembleMessages ⟨800, 400, 300, 1, 800⟩ promptFill 5
        ["user: A", "assistant: B"]
      = [systemMessage 5, ⟨Role.assistant, "B"⟩, ⟨Role.user, promptFill⟩] := by
  decide

/-- Claim C8: when the upstream returns a non-success status, the chat
request fails with the error text API request failed followed by the
response body, wrapped by the handler as Failed to generate response,
and the session store keeps exactly the already-appended user turn under
the requesting session while every other session entry is untouched: no
rollback of the user turn and no assistant turn. -/
theorem upstream_error_keeps_user_turn (cfg : Config) (m : SessionMap)
    (id : Nat) (msg : String) (maxTok : Nat) (body : String)
    (extracted : Option String) (j : Nat) (hj : j ≠ id) :
    (chatStep cfg m id msg maxTok ⟨false, body, extracted⟩).result
        = Except.error
            ("Failed to generate response: " ++ ("API request failed: " ++ body)) ∧
    (chatStep cfg m id msg maxTok ⟨false, body, extracted⟩).sessions id
        = some (getOrCreate m id ++ ["user: " ++ msg]) ∧
    (chatStep cfg m id msg maxTok ⟨false, body, extracted⟩).sessions j = m j := by
  unfold chatStep generate_response_result
  simp [hj]

/-- Witness for C8: an empty store, session 0, upstream 500 with body
server overloaded, and the frame checked at session 1. -/
theorem upstream_error_keeps_user_turn_witness :
    (1 : Nat) ≠ 0 ∧
    ((chatStep ⟨4096, 200, 500, 100, 4096⟩ emptySessions 0 "hello" 512
          ⟨false, "server overloaded", none⟩).result
        = Except.error
            ("Failed to generate response: "
              ++ ("API request failed: " ++ "server overloaded")) ∧
      (chatStep ⟨4096, 200, 500, 100, 4096⟩ emptySessions 0 "hello" 512
          ⟨false, "server overloaded", none⟩).sessions 0
        = some (getOrCreate emptySessions 0 ++ ["user: " ++ "hello"]) ∧
      (chatStep ⟨4096, 200, 500, 100, 4096⟩ emptySessions 0 "hello" 512
          ⟨false, "server overloaded", none⟩).sessions 1
        = emptySessions 1) :=
  ⟨by decide,
    upstream_error_keeps_user_turn ⟨4096, 200, 500, 100, 4096⟩ emptySessions
      0 "hello" 512 "server overloaded" none 1 (by decide)⟩

/-- Claim C9: session isolation. Appending a turn under session A leaves
the entry of a distinct session B unchanged; any sequence of store
operations all targeting A leaves the entry of B unchanged; and a whole
chat request under A, whatever the upstream reply, leaves the entry of B
unchanged — so turns appended under A never appear in the snapshot of B. -/
theorem session_isolation (m : SessionMap) (A B : Nat) (t : String)
    (ops : List (Nat × String)) (cfg : Config) (msg : String) (maxTok : Nat)
    (up : UpstreamReply) (hAB : A ≠ B)
    (hops : targets A ops = true) :
    appendTurn m A t B = m B ∧
    runOps m ops B = m B ∧
    (chatStep cfg m A msg maxTok up).sessions B = m B := by
  refine ⟨?_, runOps_frame A B hAB ops m hops, ?_⟩
  · simp [appendTurn, Ne.symm hAB]
  · cases hres : generate_response_result up with
    | ok r => simp [chatStep, hres, Ne.symm hAB]
    | error e => simp [chatStep, hres, Ne.symm hAB]

/-- Witness for C9: sessions 5 and 7, two appends under 5, and one chat
request under 5 with a successful upstream reply. -/
theorem session_isolation_witness :
    (5 : Nat) ≠ 7 ∧
    targets 5 [((5 : Nat), "user: x"), (5, "assistant: y")] = true ∧
    (appendTurn emptySessions 5 "user: z" 7 = emptySessions 7 ∧
      runOps emptySessions [((5 : Nat), "user: x"), (5, "assistant: y")] 7
        = emptySessions 7 ∧
      (chatStep ⟨4096, 200, 500, 100, 4096⟩ emptySessions 5 "hello" 512
          ⟨true, "", some "ok"⟩).sessions 7
        = emptySessions 7) :=
  ⟨by decide, by decide,
    session_isolation emptySessions 5 7 "user: z"
      [((5 : Nat), "user: x"), (5, "assistant: y")]
      ⟨4096, 200, 500, 100, 4096⟩ "hello" 512 ⟨true, "", some "ok"⟩
      (by decide) (by decide)⟩

/-- Claim C10: the chat handler appends the user turn before the
snapshot is taken, and the assembler separately appends the
enhancement-suffixed prompt as the final user message; so whenever the
budget retains the most recent history entry, the outbound list carries
the current message twice: once as a plain user turn somewhere before
the last position, and once, enhancement appended, as the final user
message. -/
theorem current_message_sent_twice_when_recent_turn_fits (cfg : Config)
    (m : SessionMap) (id : Nat) (msg : String) (maxTok : Nat)
    (up : UpstreamReply)
    (hpre : strStartsWith "user: " msg = false)
    (hret : truncate_history (getOrCreate m id ++ ["user: " ++ msg])
        (available_history_tokens cfg (enhance_prompt msg)) ≠ []) :
    Message.mk Role.user msg
        ∈ ((chatStep cfg m id msg maxTok up).payload).dropLast ∧
    ((chatStep cfg m id msg maxTok up).payload).getLast?
        = some (Message.mk Role.user (enhance_prompt msg)) := by
  have hu : estimate_tokens ("user: " ++ msg)
      ≤ available_history_tokens cfg (enhance_prompt msg) := by
    by_contra hgt
    apply hret
    rw [truncate_history_append_last, if_neg hgt]
  have hkept := truncate_history_append_last (getOrCreate m id)
      ("user: " ++ msg) (available_history_tokens cfg (enhance_prompt msg))
  rw [if_pos hu] at hkept
  constructor
  · rw [chatStep_payload]
    unfold assembleMessages
    rw [hkept, ← List.cons_append, List.dropLast_concat]
    simp [List.filterMap_append, parseTurn_user msg hpre]
  · rw [chatStep_payload]
    unfold assembleMessages
    rw [hkept, ← List.cons_append, List.getLast?_concat]

/-- Witness for C10: an empty store, session 0, message hi, a budget
large enough to retain the freshly appended user turn. -/
theorem current_message_sent_twice_when_recent_turn_fits_witness :
    strStartsWith "user: " "hi" = false ∧
    truncate_history (getOrCreate emptySessions 0 ++ ["user: " ++ "hi"])
        (available_history_tokens ⟨100, 0, 0, 0, 100⟩ (enhance_prompt "hi"))
      ≠ [] ∧
    (Message.mk Role.user "hi"
        ∈ ((chatStep ⟨100, 0, 0, 0, 100⟩ emptySessions 0 "hi" 5
            ⟨true, "", some "ok"⟩).payload).dropLast ∧
      ((chatStep ⟨100, 0, 0, 0, 100⟩ emptySessions 0 "hi" 5
            ⟨true, "", some "ok"⟩).payload).getLast?
        = some (Message.mk Role.user (enhance_prompt "hi"))) :=
  ⟨by decide, by decide,
    current_message_sent_twice_when_recent_turn_fits ⟨100, 0, 0, 0, 100⟩
      emptySessions 0 "hi" 5 ⟨true, "", some "ok"⟩ (by decide) (by decide)⟩
